import Mathlib

/-!
Verification development for the blackjack-trainer repository.

The repository has two source files with game logic:
* `src/blackjackLogic.js` — the pure round resolver `resolveBlackjackRound`;
* `src/App.jsx` — the interactive trainer: hand-value helpers
  (`calculateHandValue`, `isSoftHand`, `canSplit`), the strategy engine
  (`getOptimalAction`), the dealer loop (`dealerPlay`), settlement
  (`finishHand`) and the decision recorder (`recordDecision`).

Cards are embedded as a rank plus a numeric value, exactly the shape the
JavaScript uses (`{rank, value}`); money is embedded as `ℚ` (the source
uses JavaScript numbers and multiplies bets by 2.5 on a natural blackjack);
hand totals are `ℕ`.  Every definition in the `Blackjack` namespace is a
direct translation of the corresponding JavaScript; definitions whose name
contains `spec`/`claim` are written from the specification's words and are
used to compare the code against the spec.
-/

namespace Blackjack

/-- Card ranks of the standard deck, as the strings used by the source
(`'A','2',...,'10','J','Q','K'`). -/
inductive Rank where
  | ace | two | three | four | five | six | seven | eight | nine | ten
  | jack | queen | king
deriving DecidableEq

/-- A card as the source stores it: a rank together with the numeric value
that was assigned when the card was created (`App.jsx` line 136: aces 11,
face cards 10, number cards their face value).  Suits never influence any
of the verified logic and are omitted. -/
structure Card where
  rank : Rank
  value : Nat
deriving DecidableEq

/-- The value `createDeck` assigns to a rank (`App.jsx` line 136):
`rank === 'A' ? 11 : ['J','Q','K'].includes(rank) ? 10 : parseInt(rank)`. -/
def nominalValue : Rank → Nat
  | .ace => 11
  | .two => 2
  | .three => 3
  | .four => 4
  | .five => 5
  | .six => 6
  | .seven => 7
  | .eight => 8
  | .nine => 9
  | .ten => 10
  | .jack => 10
  | .queen => 10
  | .king => 10

/-- A card as `createDeck` builds it from a rank. -/
def mkCard (r : Rank) : Card := ⟨r, nominalValue r⟩

/-- Number of cards of rank Ace in a hand (the `aces` counter of
`calcValue` / `calculateHandValue`). -/
def aceCount (hand : List Card) : Nat :=
  hand.countP (fun c => decide (c.rank = Rank.ace))

/-- Sum of the stored card values of a hand (the `value` accumulator before
ace reduction, `blackjackLogic.js` lines 38-43 / `App.jsx` lines 162-169). -/
def rawSum (hand : List Card) : Nat :=
  (hand.map (fun c => c.value)).sum

/-- The ace-reduction loop `while (value > 21 && aces > 0) value -= 10`
(`blackjackLogic.js` lines 44-47, `App.jsx` lines 172-175), recursing on the
ace counter. -/
def reduceAces : Nat → Nat → Nat
  | v, 0 => v
  | v, a + 1 => if 21 < v then reduceAces (v - 10) a else v

/-- Hand total: `calcValue` of `blackjackLogic.js` (lines 37-49).
`calculateHandValue` of `App.jsx` (lines 161-184) is the identical
algorithm (its `isNaN` guard is vacuous over integers). -/
def calcValue (hand : List Card) : Nat :=
  reduceAces (rawSum hand) (aceCount hand)

/-- Softness test of `blackjackLogic.js` (lines 52-64): count every Ace as 1
(`base`), any non-Ace by its stored value; the hand is soft when it holds an
Ace and `base + 10 <= 21`. -/
def baseSum (hand : List Card) : Nat :=
  (hand.map (fun c => if c.rank = Rank.ace then 1 else c.value)).sum

/-- `isSoft` of `blackjackLogic.js` lines 52-64:
`aces > 0 && base + 10 <= 21`. -/
def isSoft (hand : List Card) : Bool :=
  decide (0 < aceCount hand) && decide (baseSum hand + 10 ≤ 21)

/-- `isSoftHand` of `App.jsx` lines 187-199: sums the stored values (aces
kept at 11, no reduction) and returns
`hasAce && value <= 21 && hand.some(card => card.rank === 'A')` —
the last conjunct is the source's own redundant repetition of `hasAce`. -/
def isSoftHand (hand : List Card) : Bool :=
  (hand.any (fun c => decide (c.rank = Rank.ace)))
    && decide (rawSum hand ≤ 21)
    && (hand.any (fun c => decide (c.rank = Rank.ace)))

/-- `isBlackjack` of `blackjackLogic.js` line 66:
`hand.length === 2 && calcValue(hand) === 21`. -/
def isBlackjack (hand : List Card) : Bool :=
  decide (hand.length = 2) && decide (calcValue hand = 21)

/-- `canSplit` of `App.jsx` lines 202-204 (also the inline `isPair` of
`getOptimalAction` line 221 and of `recordDecision` line 662):
`hand.length === 2 && hand[0].rank === hand[1].rank`. -/
def canSplitHand (hand : List Card) : Bool :=
  match hand with
  | [a, b] => decide (a.rank = b.rank)
  | _ => false

/-- Possible per-hand results (`blackjackLogic.js` line 22 and the strings
used by `finishHand`/`updateStats`). -/
inductive HandResult where
  | win | loss | push | blackjack | bust | surrender
deriving DecidableEq

/-- An entry of the resolver's `outcomes` array:
`{ result, bet, playerValue }` (`blackjackLogic.js` line 22). -/
structure Outcome where
  result : HandResult
  bet : ℚ
  playerValue : Nat
deriving DecidableEq

/-- The parameter object of `resolveBlackjackRound`
(`blackjackLogic.js` lines 27-35).  The JavaScript defaults are
`handBets = []`, `defaultBet = 25`, `dealerHitsSoft17 = true`,
`considerNaturalBlackjack = true`; here every field is explicit. -/
structure ResolveArgs where
  playerHands : List (List Card)
  dealerHand : List Card
  bankroll : ℚ
  handBets : List ℚ
  defaultBet : ℚ
  dealerHitsSoft17 : Bool
  considerNaturalBlackjack : Bool

/-- The record returned by `resolveBlackjackRound`
(`blackjackLogic.js` lines 20-25). -/
structure ResolveResult where
  bankroll : ℚ
  outcomes : List Outcome
  dealerFinalHand : List Card
  dealerValue : Nat
deriving DecidableEq

/-- Bet lookup `handBets[i] ?? defaultBet`
(`blackjackLogic.js` lines 109 and 139). -/
def betAt (bets : List ℚ) (defaultBet : ℚ) (i : Nat) : ℚ :=
  (bets.get? i).getD defaultBet

/-- The dealer draw loop shared (up to its softness helper) by the two
implementations in the source:

* `blackjackLogic.js` lines 78-89 with `softFn = isSoft`, `shown` seeded
  with `dealerHand.slice(0, 2)`, `dVal` seeded with
  `calcValue(dealerHand)` (the whole supplied array) and `rest` the cards
  past index 2;
* `App.jsx` `dealerPlay` lines 568-576 with `softFn = isSoftHand`, `shown`
  the dealer's current hand, `dVal = calculateHandValue` of it and `rest`
  the deck in pop order.

While `dVal < 17`, or `dVal = 17` with the hit-soft-17 rule on and
`softFn shown`, and a card remains, one card is appended and `dVal` is
recomputed from the grown hand; the third component returned is the unused
remainder of the card source. -/
def drawLoop (softFn : List Card → Bool) (h17 : Bool) (shown : List Card)
    (dVal : Nat) (rest : List Card) : List Card × Nat × List Card :=
  if dVal < 17 ∨ (dVal = 17 ∧ h17 = true ∧ softFn shown = true) then
    match rest with
    | [] => (shown, dVal, [])
    | c :: rest' =>
      drawLoop softFn h17 (shown ++ [c]) (calcValue (shown ++ [c])) rest'
  else (shown, dVal, rest)


/-- The resolver's dealer phase (`blackjackLogic.js` lines 74-89): the shown
hand starts as the first two supplied cards, the remaining supplied cards
are the draw order, and — the detail claim C2 turns on — the initial stop
check uses `calcValue` of the whole supplied `dealerHand` array. -/
def resolverDealerPhase (h17 : Bool) (dealerHand : List Card) :
    List Card × Nat × List Card :=
  drawLoop isSoft h17 (dealerHand.take 2) (calcValue dealerHand)
    (dealerHand.drop 2)

/-- Modelled from the spec: the §4.3 dealer state machine exactly as claim
C2 words it — repeatedly, while `handTotal` of the *current* dealer hand is
below 17, or equals 17 with `dealerHitsSoft17` and the hand soft, draw one
card from the supply and append it, re-evaluating after each draw; `DONE`
when neither condition holds or the supply is exhausted (a hard stop).  The
softness test is a parameter so that the claimed process can be compared
with either implementation. -/
def specDealerDraw (softFn : List Card → Bool) (h17 : Bool)
    (shown : List Card) (supply : List Card) : List Card × Nat × List Card :=
  if calcValue shown < 17 ∨
      (calcValue shown = 17 ∧ h17 = true ∧ softFn shown = true) then
    match supply with
    | [] => (shown, calcValue shown, [])
    | c :: s' => specDealerDraw softFn h17 (shown ++ [c]) s'
  else (shown, calcValue shown, supply)


/-- `dealerPlay` of `App.jsx` (lines 562-582), reduced to its loop: the deck
list is given in pop order (the JavaScript pops from the array's end). -/
def dealerPlayLoop (h17 : Bool) (hand : List Card) (deck : List Card) :
    List Card × Nat × List Card :=
  drawLoop isSoftHand h17 hand (calcValue hand) deck

/-- `treatAsInitial` of `blackjackLogic.js` lines 104-106:
`considerNaturalBlackjack && playerHands.length === 1 &&
playerHands[0].length === 2`. -/
def treatAsInitialB (a : ResolveArgs) : Bool :=
  a.considerNaturalBlackjack && decide (a.playerHands.length = 1)
    && decide ((a.playerHands.headD []).length = 2)

/-- The normal settlement loop of `blackjackLogic.js` lines 137-162,
recursing over the hands with their index; returns the outcomes pushed and
the accumulated `totalPayout`. -/
def settleAux (dVal : Nat) (betFn : Nat → ℚ) :
    Nat → List (List Card) → List Outcome × ℚ
  | _, [] => ([], 0)
  | i, hand :: rest =>
    let bet := betFn i
    let pVal := calcValue hand
    let r := settleAux dVal betFn (i + 1) rest
    if 21 < pVal then (⟨.bust, bet, pVal⟩ :: r.1, r.2)
    else if 21 < dVal then (⟨.win, bet, pVal⟩ :: r.1, r.2 + bet * 2)
    else if dVal < pVal then (⟨.win, bet, pVal⟩ :: r.1, r.2 + bet * 2)
    else if pVal < dVal then (⟨.loss, bet, pVal⟩ :: r.1, r.2)
    else (⟨.push, bet, pVal⟩ :: r.1, r.2 + bet)

/-- The fall-through tail of the resolver (`blackjackLogic.js` lines
137-169): settle every hand against the drawn-out dealer value and clamp
the bankroll at zero. -/
def normalSettle (a : ResolveArgs) (dealerShown : List Card) (dVal : Nat) :
    ResolveResult :=
  let st := settleAux dVal (betAt a.handBets a.defaultBet) 0 a.playerHands
  { bankroll := max 0 (a.bankroll + st.2)
    outcomes := st.1
    dealerFinalHand := dealerShown
    dealerValue := dVal }

/-- `resolveBlackjackRound` of `blackjackLogic.js` lines 27-170: dealer
phase, then the natural-blackjack early returns (which hand back the input
`dealerHand` array as `dealerFinalHand`), then normal settlement. -/
def resolveBlackjackRound (a : ResolveArgs) : ResolveResult :=
  let dp := resolverDealerPhase a.dealerHitsSoft17 a.dealerHand
  let dealerShown := dp.1
  let dVal := dp.2.1
  let dealerNatural := a.considerNaturalBlackjack && isBlackjack dealerShown
  if treatAsInitialB a then
    let bet0 := betAt a.handBets a.defaultBet 0
    let playerNatural := isBlackjack (a.playerHands.headD [])
    if playerNatural && dealerNatural then
      { bankroll := max 0 (a.bankroll + bet0)
        outcomes := [⟨.push, bet0, 21⟩]
        dealerFinalHand := a.dealerHand
        dealerValue := dVal }
    else if playerNatural then
      { bankroll := max 0 (a.bankroll + bet0 * (5 / 2 : ℚ))
        outcomes := [⟨.blackjack, bet0, 21⟩]
        dealerFinalHand := a.dealerHand
        dealerValue := dVal }
    else normalSettle a dealerShown dVal
  else normalSettle a dealerShown dVal

/-- Payout returned to the player by an outcome, read off the settlement
code: a win pays `bet * 2` (lines 148/154), a push returns the bet
(line 159), a natural blackjack returns `bet * 2.5` (line 124), busts and
losses pay nothing, and the resolver never emits `surrender`. -/
def payoutOf (o : Outcome) : ℚ :=
  match o.result with
  | .win => o.bet * 2
  | .push => o.bet
  | .blackjack => o.bet * (5 / 2 : ℚ)
  | _ => 0

/-- Modelled from the spec: claim C1's per-hand settlement rule, applied to
one hand — player total over 21 is a bust paying 0; otherwise a dealer
total over 21 is a win paying twice the bet; otherwise the totals are
compared, higher player total winning, lower losing, equal pushing. -/
def specSettleOne (dVal : Nat) (bet : ℚ) (hand : List Card) : Outcome :=
  let pVal := calcValue hand
  if 21 < pVal then ⟨.bust, bet, pVal⟩
  else if 21 < dVal then ⟨.win, bet, pVal⟩
  else if dVal < pVal then ⟨.win, bet, pVal⟩
  else if pVal < dVal then ⟨.loss, bet, pVal⟩
  else ⟨.push, bet, pVal⟩

/-- Player actions of the trainer. -/
inductive Action where
  | hit | stand | double | split | surrender
deriving DecidableEq

/-- The effective dealer up-card value of `getOptimalAction` line 219:
`dealerUpCard.value === 11 ? (dealerUpCard.rank === 'A' ? 11 :
dealerUpCard.value) : dealerUpCard.value` (every branch yields the stored
value; the conditional is kept as written). -/
def dealerValueOf (up : Card) : Nat :=
  if up.value = 11 then (if up.rank = Rank.ace then 11 else up.value)
  else up.value

/-- Rank of the first card of a hand (`playerHand[0].rank`); the default is
irrelevant because every use is guarded by a pair test, which requires two
cards. -/
def firstRank (hand : List Card) : Rank :=
  match hand with
  | c :: _ => c.rank
  | [] => Rank.ace

/-- The pair-splitting section of `getOptimalAction` (`App.jsx` lines
225-239) as the disjunction of the conditions under which one of its
`return 'split'` statements fires; when none fires the JavaScript falls
through to the total-based rules. -/
def pairSplitWould (r : Rank) (dv : Nat) : Bool :=
  decide (r = Rank.ace) || decide (r = Rank.eight)
    || (decide (r = Rank.nine) && !(decide (dv = 7) || decide (dv = 10) || decide (dv = 11)))
    || (decide (r = Rank.seven) && decide (dv ≤ 7))
    || (decide (r = Rank.six) && decide (dv ≤ 6))
    || ((decide (r = Rank.two) || decide (r = Rank.three)) && decide (dv ≤ 7))
    || (decide (r = Rank.four) && (decide (dv = 5) || decide (dv = 6)))

/-- The soft-hand section of `getOptimalAction` (`App.jsx` lines 243-259),
reached when the pair section did not return. -/
def softDecision (pv dv : Nat) (canDouble : Bool) : Action :=
  if 19 ≤ pv then .stand
  else if pv = 18 then
    if canDouble = true ∧ (dv = 3 ∨ dv = 4 ∨ dv = 5 ∨ dv = 6) then .double
    else if 9 ≤ dv then .hit
    else .stand
  else if 17 ≤ pv ∧ canDouble = true ∧ (dv = 3 ∨ dv = 4 ∨ dv = 5 ∨ dv = 6) then .double
  else if 15 ≤ pv ∧ canDouble = true ∧ (dv = 4 ∨ dv = 5 ∨ dv = 6) then .double
  else if 13 ≤ pv ∧ canDouble = true ∧ (dv = 5 ∨ dv = 6) then .double
  else .hit

/-- The hard-hand section of `getOptimalAction` (`App.jsx` lines 262-291):
stand, double, surrender (only on two-card hands) and the default hit. -/
def hardDecision (pv dv : Nat) (canDouble canSurrender : Bool) (len : Nat) :
    Action :=
  if 17 ≤ pv then .stand
  else if 13 ≤ pv ∧ dv ≤ 6 then .stand
  else if pv = 12 ∧ (dv = 4 ∨ dv = 5 ∨ dv = 6) then .stand
  else if pv = 11 ∧ canDouble = true then .double
  else if pv = 10 ∧ canDouble = true ∧ dv ≤ 9 then .double
  else if pv = 9 ∧ canDouble = true ∧ (dv = 3 ∨ dv = 4 ∨ dv = 5 ∨ dv = 6) then .double
  else if canSurrender = true ∧ len = 2 ∧ pv = 16 ∧ (dv = 9 ∨ dv = 10 ∨ dv = 11) then .surrender
  else if canSurrender = true ∧ len = 2 ∧ pv = 15 ∧ dv = 10 then .surrender
  else .hit

/-- `getOptimalAction` of `App.jsx` lines 214-292.  A missing player hand or
up-card is modelled with `Option` (the JavaScript guard
`!playerHand || !dealerUpCard || playerHand.length === 0` returns `'hit'`);
the JavaScript default capabilities are all `true` and are passed explicitly
by callers here.  The early `return 'split'` statements of the pair section
are gathered in `pairSplitWould`; when none fires control falls through to
the soft or hard section, exactly as in the source. -/
def getOptimalAction (playerHand : Option (List Card)) (dealerUpCard : Option Card)
    (canDouble canSplit canSurrender : Bool) : Action :=
  match playerHand, dealerUpCard with
  | some hand, some up =>
    if hand.length = 0 then .hit
    else
      let pv := calcValue hand
      let dv := dealerValueOf up
      if canSplitHand hand = true ∧ canSplit = true ∧ pairSplitWould (firstRank hand) dv = true
      then .split
      else if isSoftHand hand = true then softDecision pv dv canDouble
      else hardDecision pv dv canDouble canSurrender hand.length
  | _, _ => .hit

/-- Scenario identifiers built by `recordDecision` (`App.jsx` lines
665-672).  The source builds the strings `pair_<rank>_vs_<dealerRank>`,
`soft_<total>_vs_<dealerRank>` and `hard_<total>_vs_<dealerRank>`; the
string formatting is injective on its components, so the key is embedded
as the equivalent tagged value. -/
inductive ScenarioKey where
  | pair (r : Rank) (dealerRank : Rank)
  | soft (total : Nat) (dealerRank : Rank)
  | hard (total : Nat) (dealerRank : Rank)
deriving DecidableEq

/-- Key derivation of `recordDecision` lines 659-672: pair first (two cards
of one rank), then soft per `isSoftHand`, else hard, always crossed with
the up-card's rank. -/
def scenarioKeyOf (hand : List Card) (up : Card) : ScenarioKey :=
  if canSplitHand hand = true then .pair (firstRank hand) up.rank
  else if isSoftHand hand = true then .soft (calcValue hand) up.rank
  else .hard (calcValue hand) up.rank

/-- One entry of `decisionHistory` (`App.jsx` lines 678-688); the
wall-clock `timestamp` is not modelled. -/
structure Decision where
  playerHand : List Card
  dealerUpCard : Card
  playerValue : Nat
  dealerValue : Nat
  action : Action
  optimalAction : Action
  scenarioKey : ScenarioKey
  isOptimal : Bool
deriving DecidableEq

/-- A per-scenario statistics record (`App.jsx` lines 695-700):
`{ count, actions, optimalAction, correctDecisions }`, the action
frequencies kept as a total map. -/
structure ScenarioStat where
  count : Nat
  actions : Action → Nat
  optimalAction : Action
  correctDecisions : Nat

/-- The scenario-statistics store: the JavaScript object keyed by scenario
strings, a key being absent before its first decision. -/
def ScenarioStats : Type := ScenarioKey → Option ScenarioStat

/-- The empty store. -/
def emptyStats : ScenarioStats := fun _ => none

/-- `recordDecision` of `App.jsx` lines 655-708 as a pure transition on the
store and the history list: guard on missing input, derive the key, call
the strategy engine with the JavaScript default capabilities (all `true`),
append the decision record, then bump `count`, the taken action's
frequency, and — iff the action matches the computed optimum —
`correctDecisions`, seeding an absent scenario with zero counts. -/
def recordDecision (playerHand : Option (List Card)) (dealerUpCard : Option Card)
    (action : Action) (stats : ScenarioStats) (history : List Decision) :
    ScenarioStats × List Decision :=
  match playerHand, dealerUpCard with
  | some hand, some up =>
    if hand.length = 0 then (stats, history)
    else
      let key := scenarioKeyOf hand up
      let optimal := getOptimalAction (some hand) (some up) true true true
      let d : Decision :=
        { playerHand := hand
          dealerUpCard := up
          playerValue := calcValue hand
          dealerValue := up.value
          action := action
          optimalAction := optimal
          scenarioKey := key
          isOptimal := decide (action = optimal) }
      let s := (stats key).getD ⟨0, fun _ => 0, optimal, 0⟩
      let s' : ScenarioStat :=
        { count := s.count + 1
          actions := fun a => if a = action then s.actions a + 1 else s.actions a
          optimalAction := s.optimalAction
          correctDecisions :=
            if action = optimal then s.correctDecisions + 1
            else s.correctDecisions }
      (fun k => if k = key then some s' else stats k, history ++ [d])
  | _, _ => (stats, history)

/-- Modelled from the spec: run the ace-reduction loop of `handTotal`
(demote an Ace from 11 to 1 while the total exceeds 21) and return how many
Aces are still counted as 11 when it stops. -/
def reduceAcesRemaining : Nat → Nat → Nat
  | _, 0 => 0
  | v, a + 1 => if 21 < v then reduceAcesRemaining (v - 10) a else a + 1

/-- Modelled from the spec: claim C5's softness — the hand contains at
least one Ace and, after the ace-reduction procedure of `handTotal`, at
least one Ace is still counted as 11. -/
def specSoftB (hand : List Card) : Bool :=
  decide (0 < aceCount hand)
    && decide (0 < reduceAcesRemaining (rawSum hand) (aceCount hand))

/-- Modelled from the spec: claim C6's soft-hand table exactly as worded —
stand on soft 19 or more; on soft 18 double against dealer 3-6 when
doubling is allowed, hit against 9 or more, otherwise stand; double soft 17
against 3-6; double soft 15-16 against 4-6; double soft 13-14 against 5-6;
otherwise hit.  Only the soft-18 row mentions `canDouble`. -/
def claimSoftTable (pv dv : Nat) (canDouble : Bool) : Action :=
  if 19 ≤ pv then .stand
  else if pv = 18 then
    if (3 ≤ dv ∧ dv ≤ 6) ∧ canDouble = true then .double
    else if 9 ≤ dv then .hit
    else .stand
  else if pv = 17 ∧ 3 ≤ dv ∧ dv ≤ 6 then .double
  else if (15 ≤ pv ∧ pv ≤ 16) ∧ 4 ≤ dv ∧ dv ≤ 6 then .double
  else if (13 ≤ pv ∧ pv ≤ 14) ∧ (dv = 5 ∨ dv = 6) then .double
  else .hit

/-- Claim C6's table as the code forces it to be amended: each doubling row
additionally requires `canDouble` (the code otherwise hits). -/
def softTableAmended (pv dv : Nat) (canDouble : Bool) : Action :=
  if 19 ≤ pv then .stand
  else if pv = 18 then
    if (3 ≤ dv ∧ dv ≤ 6) ∧ canDouble = true then .double
    else if 9 ≤ dv then .hit
    else .stand
  else if pv = 17 ∧ 3 ≤ dv ∧ dv ≤ 6 ∧ canDouble = true then .double
  else if (15 ≤ pv ∧ pv ≤ 16) ∧ 4 ≤ dv ∧ dv ≤ 6 ∧ canDouble = true then .double
  else if (13 ≤ pv ∧ pv ≤ 14) ∧ (dv = 5 ∨ dv = 6) ∧ canDouble = true then .double
  else .hit

/-!
Heap model for the frame claim C10.  JavaScript arrays are references into
a store; `resolveBlackjackRound` receives references to the player hand
arrays and to the dealer hand array.  The store holds the card arrays —
the only argument data the function could conceivably mutate through a
reference it is given (`handBets` and the hand-reference list are only ever
indexed, and the `outcomes` array is created by the function itself as a
literal `[]`, so it cannot alias an argument).  The embedding gives the
store exactly the operations the source performs on card arrays: reads
(`length`, indexing, iteration in `calcValue`/`isSoft`/`isBlackjack`) and
fresh allocations (`slice` at line 75, `concat` at line 86); the source
contains no store write at all, and the theorems make that observable.
-/

/-- The store of card arrays; an address is an index. -/
abbrev Heap : Type := List (List Card)

/-- Read the array at an address (the source never reads a dangling
reference; the default keeps the model total). -/
def heapRead (h : Heap) (a : Nat) : List Card :=
  h.getD a []

/-- Allocate a fresh array holding `v`, returning the new store and the
fresh address. -/
def heapAlloc (h : Heap) (v : List Card) : Heap × Nat :=
  (h ++ [v], h.length)

/-- The resolver's dealer loop over the store (`blackjackLogic.js` lines
78-89): each `concat` allocates a fresh array for the grown shown hand;
returns the final store, the address of the shown hand and the final
dealer value. -/
def drawLoopH (h17 : Bool) (h : Heap) (shownA : Nat) (dVal : Nat)
    (rest : List Card) : Heap × Nat × Nat :=
  if dVal < 17 ∨ (dVal = 17 ∧ h17 = true ∧ isSoft (heapRead h shownA) = true) then
    match rest with
    | [] => (h, shownA, dVal)
    | c :: rest' =>
      let al := heapAlloc h (heapRead h shownA ++ [c])
      drawLoopH h17 al.1 al.2 (calcValue (heapRead al.1 al.2)) rest'
  else (h, shownA, dVal)


/-- The resolver's result with the dealer's final hand as a store address
(the JavaScript returns the array reference). -/
structure HResult where
  bankroll : ℚ
  outcomes : List Outcome
  dealerFinalHandAddr : Nat
  dealerValue : Nat

/-- `resolveBlackjackRound` over the store: player hands and the dealer
hand are passed as addresses.  Line for line the same computation as the
pure `resolveBlackjackRound`, except that `dealerHand.slice(0, ...)`
(line 75) and each `concat` (line 86) allocate, and the returned
`dealerFinalHand` is an address — the input `dealerHand` reference itself
on the two natural-blackjack early returns (lines 119 and 129), the last
allocated shown hand otherwise (line 167). -/
def resolveH (h : Heap) (playerHandAddrs : List Nat) (dealerAddr : Nat)
    (bankroll : ℚ) (handBets : List ℚ) (defaultBet : ℚ)
    (h17 cnb : Bool) : Heap × HResult :=
  let dealerHand := heapRead h dealerAddr
  let al := heapAlloc h (dealerHand.take 2)
  let dl := drawLoopH h17 al.1 al.2 (calcValue dealerHand) (dealerHand.drop 2)
  let h' := dl.1
  let shownA := dl.2.1
  let dVal := dl.2.2
  let dealerNatural := cnb && isBlackjack (heapRead h' shownA)
  let playerHands := playerHandAddrs.map (heapRead h)
  if cnb && decide (playerHands.length = 1)
      && decide ((playerHands.headD []).length = 2) then
    let bet0 := betAt handBets defaultBet 0
    let playerNatural := isBlackjack (playerHands.headD [])
    if playerNatural && dealerNatural then
      (h', { bankroll := max 0 (bankroll + bet0)
             outcomes := [⟨.push, bet0, 21⟩]
             dealerFinalHandAddr := dealerAddr
             dealerValue := dVal })
    else if playerNatural then
      (h', { bankroll := max 0 (bankroll + bet0 * (5 / 2 : ℚ))
             outcomes := [⟨.blackjack, bet0, 21⟩]
             dealerFinalHandAddr := dealerAddr
             dealerValue := dVal })
    else
      let st := settleAux dVal (betAt handBets defaultBet) 0 playerHands
      (h', { bankroll := max 0 (bankroll + st.2)
             outcomes := st.1
             dealerFinalHandAddr := shownA
             dealerValue := dVal })
  else
    let st := settleAux dVal (betAt handBets defaultBet) 0 playerHands
    (h', { bankroll := max 0 (bankroll + st.2)
           outcomes := st.1
           dealerFinalHandAddr := shownA
           dealerValue := dVal })

/-- The pure arguments a store state denotes: the hands the addresses point
at. -/
def argsFromHeap (h : Heap) (playerHandAddrs : List Nat) (dealerAddr : Nat)
    (bankroll : ℚ) (handBets : List ℚ) (defaultBet : ℚ)
    (h17 cnb : Bool) : ResolveArgs :=
  { playerHands := playerHandAddrs.map (heapRead h)
    dealerHand := heapRead h dealerAddr
    bankroll := bankroll
    handBets := handBets
    defaultBet := defaultBet
    dealerHitsSoft17 := h17
    considerNaturalBlackjack := cnb }

/-!  Shared lemmas. -/

/-- Once its running total is the total of its current hand, the source's
draw loop agrees step for step with the spec's state machine (for any
softness helper). -/
lemma drawLoop_eq_spec (softFn : List Card → Bool) (h17 : Bool) :
    ∀ (rest shown : List Card),
      drawLoop softFn h17 shown (calcValue shown) rest =
        specDealerDraw softFn h17 shown rest := by
  intro rest
  induction rest with
  | nil =>
    intro shown
    unfold drawLoop specDealerDraw
    split_ifs <;> rfl
  | cons c rest' ih =>
    intro shown
    unfold drawLoop specDealerDraw
    split_ifs
    · exact ih (shown ++ [c])
    · rfl

/-- The settlement loop emits, in order, exactly the claim's per-hand rule
applied to each (index, hand) pair. -/
lemma settleAux_outcomes (dVal : Nat) (betFn : Nat → ℚ) :
    ∀ (hands : List (List Card)) (i : Nat),
      (settleAux dVal betFn i hands).1 =
        (List.enumFrom i hands).map
          (fun p => specSettleOne dVal (betFn p.1) p.2) := by
  intro hands
  induction hands with
  | nil => intro i; simp [settleAux]
  | cons hand rest ih =>
    intro i
    simp only [settleAux, List.enumFrom_cons, List.map_cons]
    split_ifs with h1 h2 h3 h4 <;> simp [specSettleOne, *]

/-- The settlement loop's accumulated `totalPayout` is the sum of the
payouts its outcomes denote. -/
lemma settleAux_payout (dVal : Nat) (betFn : Nat → ℚ) :
    ∀ (hands : List (List Card)) (i : Nat),
      (settleAux dVal betFn i hands).2 =
        ((settleAux dVal betFn i hands).1.map payoutOf).sum := by
  intro hands
  induction hands with
  | nil => intro i; simp [settleAux]
  | cons hand rest ih =>
    intro i
    simp only [settleAux]
    split_ifs <;> simp [payoutOf, ih (i + 1)] <;> ring

/-- Normal settlement only ever emits bust, win, loss or push. -/
lemma settleAux_result_mem (dVal : Nat) (betFn : Nat → ℚ) :
    ∀ (hands : List (List Card)) (i : Nat) (o : Outcome),
      o ∈ (settleAux dVal betFn i hands).1 →
        o.result = .bust ∨ o.result = .win ∨ o.result = .loss ∨
          o.result = .push := by
  intro hands
  induction hands with
  | nil => intro i o ho; simp [settleAux] at ho
  | cons hand rest ih =>
    intro i o ho
    simp only [settleAux] at ho
    split_ifs at ho <;> rcases List.mem_cons.mp ho with h | h <;>
      first
        | (subst h; simp)
        | exact ih (i + 1) o h

/-- C2, counterexample.  On the supplied dealer array `[A, 9, 5]` the
resolver's loop seeds its stop check with the ace-reduced total of the
whole array (15), so it draws the 5 although the dealer's current hand
`[A, 9]` totals 20 — the claimed state machine stops at once on 20 without
drawing.  The resolver ends with dealer value 15 where the claimed process
ends with 20. -/
theorem c2_counterexample :
    resolverDealerPhase true [mkCard .ace, mkCard .nine, mkCard .five] =
        ([mkCard .ace, mkCard .nine, mkCard .five], 15, []) ∧
      specDealerDraw isSoft true
          ([mkCard .ace, mkCard .nine, mkCard .five].take 2)
          ([mkCard .ace, mkCard .nine, mkCard .five].drop 2) =
        ([mkCard .ace, mkCard .nine], 20, [mkCard .five]) := by
  constructor <;> decide

/-- C2, amended.  The resolver's dealer phase follows the claimed draw
process except for its very first stop check, which uses `handTotal` of the
*entire* supplied `dealerHand` array (visible cards plus undrawn supply)
together with the softness of the two-card prefix; if that check passes and
supply remains, one card is drawn and from then on the process re-evaluates
the evolving hand exactly as claimed, stopping when neither condition holds
or the supply is exhausted (a hard stop, settlement proceeding with the
resulting total).  The interactive `dealerPlay` loop of `App.jsx` follows
the claimed process exactly, with softness tested by its `isSoftHand`
helper. -/
theorem c2_amended (h17 : Bool) (dealerHand : List Card) :
    (resolverDealerPhase h17 dealerHand =
      if calcValue dealerHand < 17 ∨
          (calcValue dealerHand = 17 ∧ h17 = true ∧
            isSoft (dealerHand.take 2) = true) then
        match dealerHand.drop 2 with
        | [] => (dealerHand.take 2, calcValue dealerHand, ([] : List Card))
        | c :: s' => specDealerDraw isSoft h17 (dealerHand.take 2 ++ [c]) s'
      else (dealerHand.take 2, calcValue dealerHand, dealerHand.drop 2)) ∧
    ∀ (hand deck : List Card),
      dealerPlayLoop h17 hand deck = specDealerDraw isSoftHand h17 hand deck := by
  constructor
  · unfold resolverDealerPhase
    unfold drawLoop
    split_ifs
    · cases hdrop : dealerHand.drop 2 with
      | nil => rfl
      | cons c s' =>
        exact drawLoop_eq_spec isSoft h17 s' (dealerHand.take 2 ++ [c])
    · rfl
  · intro hand deck
    exact drawLoop_eq_spec isSoftHand h17 deck hand

/-- C4: on every return path of `resolveBlackjackRound` — the two
natural-blackjack early returns included — the returned bankroll is
`max 0 (input bankroll + sum of the payouts of the returned outcomes)`,
and is therefore never negative, whatever the inputs. -/
theorem c4_bankroll_clamped (a : ResolveArgs) :
    (resolveBlackjackRound a).bankroll =
        max 0 (a.bankroll +
          (((resolveBlackjackRound a).outcomes.map payoutOf).sum)) ∧
      0 ≤ (resolveBlackjackRound a).bankroll := by
  simp only [resolveBlackjackRound, normalSettle]
  split_ifs <;> simp [payoutOf, ← settleAux_payout, le_max_left]

/-- Under the hypothesis that no natural-blackjack early return fires, the
resolver is exactly its normal-settlement tail. -/
lemma resolve_eq_normal (a : ResolveArgs)
    (hn : ¬(treatAsInitialB a = true ∧
        isBlackjack (a.playerHands.headD []) = true)) :
    resolveBlackjackRound a =
      normalSettle a (resolverDealerPhase a.dealerHitsSoft17 a.dealerHand).1
        (resolverDealerPhase a.dealerHitsSoft17 a.dealerHand).2.1 := by
  simp only [resolveBlackjackRound]
  split_ifs with h1 h2 h3
  · exact absurd ⟨h1, (Bool.and_eq_true _ _).mp h2 |>.1⟩ hn
  · exact absurd ⟨h1, h3⟩ hn
  · rfl
  · rfl

/-- C1: whenever `resolveBlackjackRound` reaches normal settlement, the
returned outcomes are exactly one per player hand, in input order, each
carrying that hand's own bet (`handBets[i] ?? defaultBet`) and classified
independently by the claimed rule — bust over 21 paying 0, else win paying
twice the bet when the dealer busts or is outscored, loss paying 0, push
returning the bet — so every non-bust, non-blackjack outcome pays exactly
0, the bet, or twice the bet, matching loss, push and win respectively. -/
theorem c1_settlement (a : ResolveArgs)
    (hn : ¬(treatAsInitialB a = true ∧
        isBlackjack (a.playerHands.headD []) = true)) :
    (resolveBlackjackRound a).outcomes =
        (List.enumFrom 0 a.playerHands).map
          (fun p =>
            specSettleOne (resolverDealerPhase a.dealerHitsSoft17 a.dealerHand).2.1
              (betAt a.handBets a.defaultBet p.1) p.2) ∧
      (resolveBlackjackRound a).outcomes.length = a.playerHands.length ∧
      ∀ o ∈ (resolveBlackjackRound a).outcomes,
        o.result ≠ .bust → o.result ≠ .blackjack →
          (o.result = .loss ∧ payoutOf o = 0) ∨
            (o.result = .push ∧ payoutOf o = o.bet) ∨
            (o.result = .win ∧ payoutOf o = 2 * o.bet) := by
  rw [resolve_eq_normal a hn]
  refine ⟨?_, ?_, ?_⟩
  · simp only [normalSettle]
    exact settleAux_outcomes _ _ a.playerHands 0
  · simp only [normalSettle]
    rw [settleAux_outcomes _ _ a.playerHands 0]
    simp
  · intro o ho hbust hbj
    simp only [normalSettle] at ho
    rcases settleAux_result_mem _ _ a.playerHands 0 o ho with h | h | h | h
    · exact absurd h hbust
    · exact Or.inr (Or.inr ⟨h, by simp [payoutOf, h, mul_comm]⟩)
    · exact Or.inl ⟨h, by simp [payoutOf, h]⟩
    · exact Or.inr (Or.inl ⟨h, by simp [payoutOf, h]⟩)

/-- The round shipped as the repository's example run (`unnamed/part_000`):
player `[4, Q, K]` (a hard 24) against dealer `[6, 7]`, bet 25,
bankroll 975. -/
def partExampleArgs : ResolveArgs :=
  { playerHands := [[mkCard .four, mkCard .queen, mkCard .king]]
    dealerHand := [mkCard .six, mkCard .seven]
    bankroll := 975
    handBets := [25]
    defaultBet := 25
    dealerHitsSoft17 := true
    considerNaturalBlackjack := true }

/-- C1, witness: the example round reaches normal settlement and gets one
outcome per player hand. -/
theorem c1_witness :
    ¬(treatAsInitialB partExampleArgs = true ∧
        isBlackjack (partExampleArgs.playerHands.headD []) = true) ∧
      (resolveBlackjackRound partExampleArgs).outcomes.length =
        partExampleArgs.playerHands.length :=
  ⟨by decide, (c1_settlement partExampleArgs (by decide)).2.1⟩

/-- C3, counterexample.  With the single two-card player hand `[A, Q]` and
the supplied dealer array `[A, K, 5]`, both the player and the dealer hold
naturals (the dealer's dealt two cards are `[A, K]`), yet the resolver pays
the hand as a 3:2 `blackjack` instead of the claimed `push`: the dealer
phase ace-reduces the whole array to 16, draws the 5, and the natural test
then sees a three-card hand. -/
theorem c3_counterexample :
    isBlackjack [mkCard .ace, mkCard .queen] = true ∧
      isBlackjack ([mkCard .ace, mkCard .king, mkCard .five].take 2) = true ∧
      (resolveBlackjackRound
          { playerHands := [[mkCard .ace, mkCard .queen]]
            dealerHand := [mkCard .ace, mkCard .king, mkCard .five]
            bankroll := 100
            handBets := [25]
            defaultBet := 25
            dealerHitsSoft17 := true
            considerNaturalBlackjack := true }).outcomes.map
          (fun o => o.result) = [.blackjack] := by
  refine ⟨by decide, by decide, by decide⟩

/-- C3, amended.  Natural handling fires exactly when there is one player
hand of exactly two cards and the config enables natural evaluation, but
the dealer's natural is judged on the dealer's *drawn-out* hand (two cards
totalling 21 after the dealer phase), not on the dealer's dealt two cards:
both natural → push returning the stake; player natural only → blackjack
returning 2.5 × stake; otherwise settlement falls through to the normal
rules, whose outcomes never include the natural bonus — so split hands and
hands of more than two cards never receive it.  When the supplied dealer
array is just the dealer's two dealt cards, drawn-out and dealt coincide
and the claim reads as stated. -/
theorem c3_amended (a : ResolveArgs) :
    (treatAsInitialB a = true →
      isBlackjack (a.playerHands.headD []) = true →
      (a.considerNaturalBlackjack &&
          isBlackjack (resolverDealerPhase a.dealerHitsSoft17 a.dealerHand).1) = true →
      resolveBlackjackRound a =
        { bankroll := max 0 (a.bankroll + betAt a.handBets a.defaultBet 0)
          outcomes := [⟨.push, betAt a.handBets a.defaultBet 0, 21⟩]
          dealerFinalHand := a.dealerHand
          dealerValue := (resolverDealerPhase a.dealerHitsSoft17 a.dealerHand).2.1 }) ∧
    (treatAsInitialB a = true →
      isBlackjack (a.playerHands.headD []) = true →
      (a.considerNaturalBlackjack &&
          isBlackjack (resolverDealerPhase a.dealerHitsSoft17 a.dealerHand).1) = false →
      resolveBlackjackRound a =
        { bankroll := max 0 (a.bankroll +
            betAt a.handBets a.defaultBet 0 * (5 / 2 : ℚ))
          outcomes := [⟨.blackjack, betAt a.handBets a.defaultBet 0, 21⟩]
          dealerFinalHand := a.dealerHand
          dealerValue := (resolverDealerPhase a.dealerHitsSoft17 a.dealerHand).2.1 }) ∧
    (¬(treatAsInitialB a = true ∧
        isBlackjack (a.playerHands.headD []) = true) →
      resolveBlackjackRound a =
          normalSettle a (resolverDealerPhase a.dealerHitsSoft17 a.dealerHand).1
            (resolverDealerPhase a.dealerHitsSoft17 a.dealerHand).2.1 ∧
        ∀ o ∈ (resolveBlackjackRound a).outcomes, o.result ≠ .blackjack) ∧
    (a.dealerHand.length ≤ 2 →
      (resolverDealerPhase a.dealerHitsSoft17 a.dealerHand).1 = a.dealerHand) := by
  refine ⟨?_, ?_, ?_, ?_⟩
  · intro h1 h2 h3
    have h2' : isBlackjack (a.playerHands.head?.getD []) = true := by
      simpa using h2
    simp [resolveBlackjackRound, h1, h2', h3]
  · intro h1 h2 h3
    have h2' : isBlackjack (a.playerHands.head?.getD []) = true := by
      simpa using h2
    simp [resolveBlackjackRound, h1, h2', h3]
  · intro hn
    refine ⟨resolve_eq_normal a hn, ?_⟩
    intro o ho
    rw [resolve_eq_normal a hn] at ho
    simp only [normalSettle] at ho
    rcases settleAux_result_mem _ _ a.playerHands 0 o ho with h | h | h | h <;>
      simp [h]
  · intro hle
    simp only [resolverDealerPhase]
    rw [List.take_of_length_le hle, List.drop_eq_nil_of_le hle]
    unfold drawLoop
    split_ifs <;> rfl

/-- C3, witness: a genuine initial deal with both naturals — player
`[A, K]`, dealer exactly `[A, Q]` — pushes and returns the stake. -/
theorem c3_witness :
    resolveBlackjackRound
        { playerHands := [[mkCard .ace, mkCard .king]]
          dealerHand := [mkCard .ace, mkCard .queen]
          bankroll := 100
          handBets := [25]
          defaultBet := 25
          dealerHitsSoft17 := true
          considerNaturalBlackjack := true } =
      { bankroll := 125
        outcomes := [⟨.push, 25, 21⟩]
        dealerFinalHand := [mkCard .ace, mkCard .queen]
        dealerValue := 21 } := by
  have h := (c3_amended
    { playerHands := [[mkCard .ace, mkCard .king]]
      dealerHand := [mkCard .ace, mkCard .queen]
      bankroll := 100
      handBets := [25]
      defaultBet := 25
      dealerHitsSoft17 := true
      considerNaturalBlackjack := true }).1 (by decide) (by decide) (by decide)
  rw [h]
  refine congrArg₂ (fun x y => ResolveResult.mk x [⟨.push, 25, 21⟩] [mkCard .ace, mkCard .queen] y) ?_ ?_
  · norm_num [betAt]
  · decide

/-- For hands whose Aces carry the nominal value 11, the raw value sum
splits into the all-aces-as-1 base plus 10 per Ace. -/
lemma rawSum_eq_baseSum (hand : List Card)
    (hwf : ∀ c ∈ hand, c.rank = Rank.ace → c.value = 11) :
    rawSum hand = baseSum hand + 10 * aceCount hand := by
  induction hand with
  | nil => simp [rawSum, baseSum, aceCount]
  | cons c t ih =>
    have hwt : ∀ x ∈ t, x.rank = Rank.ace → x.value = 11 := by
      intro x hx
      exact hwf x (List.mem_cons_of_mem c hx)
    have ihe := ih hwt
    by_cases hc : c.rank = Rank.ace
    · have hv : c.value = 11 := hwf c (List.mem_cons_self c t) hc
      simp [rawSum, baseSum, aceCount, List.countP_cons, hc, hv] at *
      omega
    · simp [rawSum, baseSum, aceCount, List.countP_cons, hc] at *
      omega

/-- The reduction loop leaves an Ace counted as 11 exactly when one
demotion fewer than the ace count already brings the total to 21 or
less. -/
lemma reduceAcesRemaining_pos (a : Nat) :
    ∀ v : Nat, 0 < reduceAcesRemaining v (a + 1) ↔ v ≤ 21 + 10 * a := by
  induction a with
  | zero =>
    intro v
    simp only [reduceAcesRemaining]
    split_ifs with h <;> simp [reduceAcesRemaining] <;> omega
  | succ a ih =>
    intro v
    rw [show reduceAcesRemaining v (a + 1 + 1) =
        if 21 < v then reduceAcesRemaining (v - 10) (a + 1) else a + 1 + 1 from rfl]
    split_ifs with h
    · rw [ih (v - 10)]
      omega
    · exact ⟨fun _ => by omega, fun _ => by omega⟩

/-- The source's `hasAce` test agrees with positivity of the ace
counter. -/
lemma any_ace_eq (hand : List Card) :
    (hand.any fun c => decide (c.rank = Rank.ace)) =
      decide (0 < aceCount hand) := by
  by_cases h : 0 < aceCount hand
  · obtain ⟨c, hc, hp⟩ := List.countP_pos_iff.mp h
    rw [decide_eq_true h, List.any_eq_true]
    exact ⟨c, hc, hp⟩
  · have h0 : aceCount hand = 0 := by omega
    rw [decide_eq_false h, List.any_eq_false]
    intro c hc
    exact List.countP_eq_zero.mp h0 c hc

/-- C5, counterexample.  On the two-ace hand `[A, A]` the claimed softness
property holds (the reduction demotes one Ace, leaving the other at 11 for
a soft 12) and `blackjackLogic.js`'s `isSoft` agrees, but `App.jsx`'s
`isSoftHand` — which never demotes — answers `false`, so the claimed
biconditional fails for it. -/
theorem c5_counterexample :
    specSoftB [mkCard .ace, mkCard .ace] = true ∧
      isSoftHand [mkCard .ace, mkCard .ace] = false ∧
      isSoft [mkCard .ace, mkCard .ace] = true := by
  refine ⟨by decide, by decide, by decide⟩

/-- C5, amended.  For hands whose Aces carry their nominal value 11:
`blackjackLogic.js`'s `isSoft` satisfies the claimed biconditional for
every hand; `App.jsx`'s `isSoftHand` instead returns (Ace present and the
total with every Ace at 11 is at most 21), which coincides with the
claimed property for hands with at most one Ace but answers `false` on
hands with two or more Aces even when an Ace is still counted as 11 after
reduction. -/
theorem c5_amended (hand : List Card)
    (hwf : ∀ c ∈ hand, c.rank = Rank.ace → c.value = 11) :
    (isSoft hand = specSoftB hand) ∧
      (isSoftHand hand =
        ((hand.any fun c => decide (c.rank = Rank.ace)) &&
          decide (rawSum hand ≤ 21))) ∧
      (aceCount hand ≤ 1 → isSoftHand hand = specSoftB hand) := by
  refine ⟨?_, ?_, ?_⟩
  · unfold isSoft specSoftB
    cases hk : aceCount hand with
    | zero => simp [hk]
    | succ k =>
      have hrb := rawSum_eq_baseSum hand hwf
      rw [hrb, hk]
      simp only [decide_eq_true (Nat.succ_pos k), Bool.true_and]
      rw [decide_eq_decide]
      rw [reduceAcesRemaining_pos k]
      omega
  · cases h : (hand.any fun c => decide (c.rank = Rank.ace)) <;>
      simp [isSoftHand, h]
  · intro hle
    unfold isSoftHand specSoftB
    rw [any_ace_eq]
    cases hk : aceCount hand with
    | zero => simp
    | succ k =>
      have hk0 : k = 0 := by omega
      subst hk0
      simp only [decide_eq_true (Nat.succ_pos 0), Bool.true_and, Bool.and_true]
      rw [decide_eq_decide, reduceAcesRemaining_pos 0]

/-- C5, witness: on the one-ace hand `[A, 5]` the hypotheses hold and
`isSoft` matches the claimed property. -/
theorem c5_witness :
    (∀ c ∈ [mkCard .ace, mkCard .five], c.rank = Rank.ace → c.value = 11) ∧
      isSoft [mkCard .ace, mkCard .five] =
        specSoftB [mkCard .ace, mkCard .five] :=
  ⟨by decide, (c5_amended _ (by decide)).1⟩

/-- The code's soft-hand section computes exactly the amended claim table:
the running `>=` thresholds, evaluated top to bottom, coincide with the
exact ranges 17, 15-16 and 13-14, each additionally gated on doubling
being allowed. -/
lemma softDecision_eq_amended (pv dv : Nat) (cD : Bool) :
    softDecision pv dv cD = softTableAmended pv dv cD := by
  cases cD <;>
    (unfold softDecision softTableAmended;
     split_ifs <;> first | rfl | omega | (simp_all <;> omega))

/-- A hand `isSoftHand` accepts holds an Ace, hence is nonempty. -/
lemma isSoftHand_length_pos (hand : List Card)
    (h : isSoftHand hand = true) : hand.length ≠ 0 := by
  intro hlen
  rw [List.length_eq_zero] at hlen
  subst hlen
  simp [isSoftHand] at h

/-- C6, counterexample, refuting two parts of the claim at concrete
inputs.  First, `[A, A]` against dealer 4 with splitting unavailable: the
hand is soft 12 by §4.1 (one Ace still counts 11 after reduction) and the
claimed table says hit, but the engine's `isSoftHand` calls it hard, so the
code answers stand by the hard-12 rule.  Second, soft 17 `[A, 6]` against
dealer 4 with `canDouble = false`: the claim's soft-17 row says double
unconditionally on dealer 3-6, but the code requires `canDouble` and
hits. -/
theorem c6_counterexample :
    (specSoftB [mkCard .ace, mkCard .ace] = true ∧
      claimSoftTable (calcValue [mkCard .ace, mkCard .ace])
        (dealerValueOf (mkCard .four)) true = .hit ∧
      getOptimalAction (some [mkCard .ace, mkCard .ace])
        (some (mkCard .four)) true false true = .stand) ∧
    (specSoftB [mkCard .ace, mkCard .six] = true ∧
      claimSoftTable (calcValue [mkCard .ace, mkCard .six])
        (dealerValueOf (mkCard .four)) false = .double ∧
      getOptimalAction (some [mkCard .ace, mkCard .six])
        (some (mkCard .four)) false true true = .hit) := by
  refine ⟨⟨by decide, by decide, by decide⟩, ⟨by decide, by decide, by decide⟩⟩

/-- C6, amended.  For every player hand that the engine classifies soft
(`isSoftHand`: an Ace present and the all-aces-at-11 total at most 21 —
this coincides with §4.1 softness except on hands with two or more Aces,
which the engine plays as hard totals) and that does not take the
pair-splitting branch, the engine returns the claimed soft table with
every doubling row additionally requiring `canDouble`: stand on soft 19 or
more; on soft 18 double against dealer 3-6 when doubling is allowed, hit
against 9 or more, else stand; double soft 17 against 3-6, soft 15-16
against 4-6, soft 13-14 against 5-6, each when doubling is allowed;
otherwise hit. -/
theorem c6_amended (hand : List Card) (up : Card) (cD cS cSur : Bool)
    (hsoft : isSoftHand hand = true)
    (hnosplit : ¬(canSplitHand hand = true ∧ cS = true ∧
        pairSplitWould (firstRank hand) (dealerValueOf up) = true)) :
    getOptimalAction (some hand) (some up) cD cS cSur =
      softTableAmended (calcValue hand) (dealerValueOf up) cD := by
  simp only [getOptimalAction]
  rw [if_neg (isSoftHand_length_pos hand hsoft)]
  rw [if_neg hnosplit]
  rw [if_pos hsoft]
  exact softDecision_eq_amended _ _ _

/-- C6, witness: soft 18 `[A, 7]` against dealer 9 is classified soft and
follows the amended table (hit). -/
theorem c6_witness :
    isSoftHand [mkCard .ace, mkCard .seven] = true ∧
      getOptimalAction (some [mkCard .ace, mkCard .seven])
          (some (mkCard .nine)) true true true =
        softTableAmended (calcValue [mkCard .ace, mkCard .seven])
          (dealerValueOf (mkCard .nine)) true :=
  ⟨by decide, c6_amended _ _ _ _ _ (by decide) (by decide)⟩

/-- The recorder invocation the `split` handler actually makes
(`App.jsx` line 526): the hand passed is `[currentHand[0]]` — a one-card
hand — for a split of a pair of 8s against dealer up-card 7, recorded into
an empty store. -/
def splitRecordedCall : ScenarioStats × List Decision :=
  recordDecision (some [mkCard .eight]) (some (mkCard .seven)) .split
    emptyStats []

/-- C7, evaluation at the failing input.  When a pair of 8s is split
against dealer 7, the `split` handler passes the recorder the one-card
hand `[8]` instead of the two-card pair that existed at the moment of the
decision.  Consequently the decision lands in scenario `hard_8_vs_7`, the
computed optimal action is `hit`, and the split is recorded as not optimal
(`correctDecisions` stays 0) — while the strategy engine applied to the
actual decision-time hand `[8, 8]` answers `split`, whose scenario key is
`pair_8_vs_7`, under which nothing is recorded.  Occurrence and
action-frequency counts are incremented as the claim says, but on the
wrong scenario and against the wrong optimum. -/
theorem c7_code_bug :
    (splitRecordedCall.2.map (fun d => d.scenarioKey) =
        [ScenarioKey.hard 8 Rank.seven]) ∧
      (splitRecordedCall.2.map (fun d => d.isOptimal) = [false]) ∧
      (splitRecordedCall.1 (ScenarioKey.hard 8 Rank.seven)).map
          (fun s => s.count) = some 1 ∧
      (splitRecordedCall.1 (ScenarioKey.hard 8 Rank.seven)).map
          (fun s => s.actions .split) = some 1 ∧
      (splitRecordedCall.1 (ScenarioKey.hard 8 Rank.seven)).map
          (fun s => s.correctDecisions) = some 0 ∧
      (splitRecordedCall.1 (ScenarioKey.pair Rank.eight Rank.seven)).isSome =
        false ∧
      getOptimalAction (some [mkCard .eight, mkCard .eight])
          (some (mkCard .seven)) true true true = .split ∧
      scenarioKeyOf [mkCard .eight, mkCard .eight] (mkCard .seven) =
        .pair .eight .seven := by
  refine ⟨by decide, by decide, by decide, by decide, by decide, by decide,
    by decide, by decide⟩

/-- C8: the scenario key is a function of the shape classification
(pair / soft per `isSoftHand` / hard), the total (or the pair's first-card
rank) and the dealer up-card's rank only — two hands agreeing on those
produce identical keys whatever their constituent cards. -/
theorem c8_key_stability (h1 h2 : List Card) (u1 u2 : Card)
    (hpair : canSplitHand h1 = canSplitHand h2)
    (hsoft : isSoftHand h1 = isSoftHand h2)
    (hval : calcValue h1 = calcValue h2)
    (hrank : canSplitHand h1 = true → firstRank h1 = firstRank h2)
    (hup : u1.rank = u2.rank) :
    scenarioKeyOf h1 u1 = scenarioKeyOf h2 u2 := by
  unfold scenarioKeyOf
  rw [← hpair, ← hsoft, ← hval, ← hup]
  by_cases hp : canSplitHand h1 = true
  · simp [hp, hrank hp]
  · simp [hp]

/-- C8, witness: `[10, 6]` and `[7, 9]`, both hard 16 against a dealer
ten, key identically. -/
theorem c8_witness :
    scenarioKeyOf [mkCard .ten, mkCard .six] (mkCard .ten) =
      scenarioKeyOf [mkCard .seven, mkCard .nine] (mkCard .ten) :=
  c8_key_stability _ _ _ _ (by decide) (by decide) (by decide) (by decide)
    (by decide)

/-- C9: missing or malformed input degrades to safe defaults — the empty
hand totals 0 and is neither soft (by either softness test) nor a pair nor
a natural; `getOptimalAction` answers the safe default `hit` for an empty
hand, a missing hand or a missing up-card; and `recordDecision` leaves the
statistics store and history untouched on the same degenerate inputs.
Every embedded operation is a total function, mirroring the source's
no-throw behaviour on well-typed input. -/
theorem c9_edge_defaults :
    calcValue [] = 0 ∧
      isSoft [] = false ∧
      isSoftHand [] = false ∧
      canSplitHand [] = false ∧
      isBlackjack [] = false ∧
      (∀ (up : Option Card) (cD cS cSur : Bool),
        getOptimalAction (some []) up cD cS cSur = .hit) ∧
      (∀ (ph : Option (List Card)) (cD cS cSur : Bool),
        getOptimalAction ph none cD cS cSur = .hit) ∧
      (∀ (up : Option Card) (cD cS cSur : Bool),
        getOptimalAction none up cD cS cSur = .hit) ∧
      (∀ (up : Option Card) (act : Action) (stats : ScenarioStats)
          (hist : List Decision),
        recordDecision (some []) up act stats hist = (stats, hist)) ∧
      (∀ (ph : Option (List Card)) (act : Action) (stats : ScenarioStats)
          (hist : List Decision),
        recordDecision ph none act stats hist = (stats, hist)) := by
  refine ⟨rfl, by decide, by decide, by decide, by decide, ?_, ?_, ?_, ?_, ?_⟩
  · intro up cD cS cSur
    cases up <;> rfl
  · intro ph cD cS cSur
    cases ph <;> rfl
  · intro up cD cS cSur
    cases up <;> rfl
  · intro up act stats hist
    cases up <;> rfl
  · intro ph act stats hist
    cases ph <;> rfl

/-- Reads below the old store length are unaffected by allocations. -/
lemma heapRead_append_left (h : Heap) (ext : Heap) (i : Nat)
    (hi : i < h.length) : heapRead (h ++ ext) i = heapRead h i :=
  List.getD_append h ext [] i hi

/-- Reading a freshly allocated address yields the allocated array. -/
lemma heapRead_alloc (h : Heap) (v : List Card) :
    heapRead (h ++ [v]) h.length = v := by
  rw [heapRead, List.getD_append_right h [v] [] h.length (le_refl _)]
  simp

/-- The store-level dealer loop only allocates: the final store extends
the input store, the returned address is at or beyond the seeded address
and valid, and the shown hand and dealer value it denotes are those of the
pure loop. -/
lemma drawLoopH_spec (h17 : Bool) :
    ∀ (rest : List Card) (h : Heap) (sA dVal : Nat), sA < h.length →
      (∃ ext, (drawLoopH h17 h sA dVal rest).1 = h ++ ext) ∧
        sA ≤ (drawLoopH h17 h sA dVal rest).2.1 ∧
        (drawLoopH h17 h sA dVal rest).2.1 <
          (drawLoopH h17 h sA dVal rest).1.length ∧
        heapRead (drawLoopH h17 h sA dVal rest).1
            (drawLoopH h17 h sA dVal rest).2.1 =
          (drawLoop isSoft h17 (heapRead h sA) dVal rest).1 ∧
        (drawLoopH h17 h sA dVal rest).2.2 =
          (drawLoop isSoft h17 (heapRead h sA) dVal rest).2.1 := by
  intro rest
  induction rest with
  | nil =>
    intro h sA dVal hsA
    unfold drawLoopH drawLoop
    split_ifs <;>
      exact ⟨⟨[], by simp⟩, le_refl _, hsA, rfl, rfl⟩
  | cons c rest' ih =>
    intro h sA dVal hsA
    unfold drawLoopH drawLoop
    split_ifs with hc
    · have hrd : heapRead (h ++ [heapRead h sA ++ [c]]) h.length =
          heapRead h sA ++ [c] := heapRead_alloc h _
      have hlen : h.length < (h ++ [heapRead h sA ++ [c]]).length := by
        simp
      have hrec := ih (h ++ [heapRead h sA ++ [c]]) h.length
        (calcValue (heapRead h sA ++ [c])) hlen
      rw [hrd] at hrec
      obtain ⟨⟨ext', hext⟩, hle, hlt, hread, hdv⟩ := hrec
      simp only [heapAlloc]
      rw [hrd]
      exact ⟨⟨[heapRead h sA ++ [c]] ++ ext', by rw [hext, List.append_assoc]⟩,
        by omega, hlt, hread, hdv⟩
    · exact ⟨⟨[], by simp⟩, le_refl _, hsA, rfl, rfl⟩

/-- C10, amended.  `resolveBlackjackRound` never mutates any of its
arguments: the store after a call extends the input store, so every
pre-existing array — each player hand, the dealer hand — is unchanged (the
embedding has read and allocation operations only, because the source
performs no write on any card array; `handBets` and the hand-reference
list are only indexed, and the `outcomes` array is created by the function
as a literal `[]`, so it cannot alias an argument).  The store-level run
agrees with the pure resolver on bankroll, outcomes, dealer value and the
dealer's final hand.  On the natural-blackjack early returns, however, the
returned `dealerFinalHand` is the input `dealerHand` array itself — an
unmodified alias, not a fresh array; on the normal path it is freshly
allocated (built by `slice`/`concat`), its address lying beyond the input
store. -/
theorem c10_amended (h : Heap) (pAddrs : List Nat) (dAddr : Nat)
    (bk : ℚ) (bets : List ℚ) (dflt : ℚ) (h17 cnb : Bool)
    (hd : dAddr < h.length) :
    (∃ ext, (resolveH h pAddrs dAddr bk bets dflt h17 cnb).1 = h ++ ext) ∧
      (∀ i, i < h.length →
        heapRead (resolveH h pAddrs dAddr bk bets dflt h17 cnb).1 i =
          heapRead h i) ∧
      (resolveH h pAddrs dAddr bk bets dflt h17 cnb).2.bankroll =
        (resolveBlackjackRound
          (argsFromHeap h pAddrs dAddr bk bets dflt h17 cnb)).bankroll ∧
      (resolveH h pAddrs dAddr bk bets dflt h17 cnb).2.outcomes =
        (resolveBlackjackRound
          (argsFromHeap h pAddrs dAddr bk bets dflt h17 cnb)).outcomes ∧
      (resolveH h pAddrs dAddr bk bets dflt h17 cnb).2.dealerValue =
        (resolveBlackjackRound
          (argsFromHeap h pAddrs dAddr bk bets dflt h17 cnb)).dealerValue ∧
      heapRead (resolveH h pAddrs dAddr bk bets dflt h17 cnb).1
          (resolveH h pAddrs dAddr bk bets dflt h17 cnb).2.dealerFinalHandAddr =
        (resolveBlackjackRound
          (argsFromHeap h pAddrs dAddr bk bets dflt h17 cnb)).dealerFinalHand ∧
      ((treatAsInitialB (argsFromHeap h pAddrs dAddr bk bets dflt h17 cnb) = true ∧
          isBlackjack
            ((argsFromHeap h pAddrs dAddr bk bets dflt h17 cnb).playerHands.headD
              []) = true) →
        (resolveH h pAddrs dAddr bk bets dflt h17 cnb).2.dealerFinalHandAddr =
          dAddr) ∧
      (¬(treatAsInitialB (argsFromHeap h pAddrs dAddr bk bets dflt h17 cnb) = true ∧
          isBlackjack
            ((argsFromHeap h pAddrs dAddr bk bets dflt h17 cnb).playerHands.headD
              []) = true) →
        h.length ≤
            (resolveH h pAddrs dAddr bk bets dflt h17 cnb).2.dealerFinalHandAddr ∧
          (resolveH h pAddrs dAddr bk bets dflt h17 cnb).2.dealerFinalHandAddr <
            (resolveH h pAddrs dAddr bk bets dflt h17 cnb).1.length) := by
  have hsA : h.length < (h ++ [(heapRead h dAddr).take 2]).length := by simp
  have hspec := drawLoopH_spec h17 ((heapRead h dAddr).drop 2)
    (h ++ [(heapRead h dAddr).take 2]) h.length (calcValue (heapRead h dAddr))
    hsA
  rw [heapRead_alloc] at hspec
  obtain ⟨⟨ext, hext⟩, hle, hlt, hread, hdv⟩ := hspec
  simp only [resolveH, heapAlloc, resolveBlackjackRound, argsFromHeap,
    resolverDealerPhase, treatAsInitialB, normalSettle]
  rw [hread, hdv]
  split_ifs with t1 t2 t3 <;> dsimp only
  · refine ⟨⟨[(heapRead h dAddr).take 2] ++ ext,
      by rw [hext, List.append_assoc]⟩, ?_, rfl, rfl, rfl, ?_, fun _ => rfl, ?_⟩
    · intro i hi
      rw [hext, List.append_assoc, heapRead_append_left h _ i hi]
    · rw [hext, List.append_assoc, heapRead_append_left h _ dAddr hd]
    · intro hn
      exact absurd ⟨t1, ((Bool.and_eq_true _ _).mp t2).1⟩ hn
  · refine ⟨⟨[(heapRead h dAddr).take 2] ++ ext,
      by rw [hext, List.append_assoc]⟩, ?_, rfl, rfl, rfl, ?_, fun _ => rfl, ?_⟩
    · intro i hi
      rw [hext, List.append_assoc, heapRead_append_left h _ i hi]
    · rw [hext, List.append_assoc, heapRead_append_left h _ dAddr hd]
    · intro hn
      exact absurd ⟨t1, t3⟩ hn
  · refine ⟨⟨[(heapRead h dAddr).take 2] ++ ext,
      by rw [hext, List.append_assoc]⟩, ?_, rfl, rfl, rfl, hread, ?_, ?_⟩
    · intro i hi
      rw [hext, List.append_assoc, heapRead_append_left h _ i hi]
    · intro he
      exact absurd he.2 t3
    · intro _
      refine ⟨by omega, ?_⟩
      rw [hext] at hlt ⊢
      simp only [List.length_append] at hlt ⊢
      omega
  · refine ⟨⟨[(heapRead h dAddr).take 2] ++ ext,
      by rw [hext, List.append_assoc]⟩, ?_, rfl, rfl, rfl, hread, ?_, ?_⟩
    · intro i hi
      rw [hext, List.append_assoc, heapRead_append_left h _ i hi]
    · intro he
      exact absurd he.1 t1
    · intro _
      refine ⟨by omega, ?_⟩
      rw [hext] at hlt ⊢
      simp only [List.length_append] at hlt ⊢
      omega

/-- C10, counterexample.  A natural-blackjack round (player `[A, Q]`,
dealer `[A, K]`): the returned dealer hand is address 1 — the argument
`dealerHand` array itself, a pre-existing address, not a fresh one — so
the claim that the drawn-out dealer hand is always built from fresh arrays
fails on the early-return paths. -/
theorem c10_counterexample :
    (resolveH [[mkCard .ace, mkCard .queen], [mkCard .ace, mkCard .king]]
        [0] 1 100 [25] 25 true true).2.dealerFinalHandAddr = 1 ∧
      1 < ([[mkCard .ace, mkCard .queen],
        [mkCard .ace, mkCard .king]] : Heap).length := by
  refine ⟨by decide, by decide⟩

/-- C10, witness: on a normal-path round the player hand array at
address 0 is unchanged by the call. -/
theorem c10_witness :
    1 < ([[mkCard .ten, mkCard .six],
        [mkCard .seven, mkCard .nine]] : Heap).length ∧
      heapRead (resolveH [[mkCard .ten, mkCard .six],
          [mkCard .seven, mkCard .nine]] [0] 1 975 [25] 25 true true).1 0 =
        heapRead [[mkCard .ten, mkCard .six],
          [mkCard .seven, mkCard .nine]] 0 :=
  ⟨by decide,
    (c10_amended [[mkCard .ten, mkCard .six], [mkCard .seven, mkCard .nine]]
      [0] 1 975 [25] 25 true true (by decide)).2.1 0 (by decide)⟩

end Blackjack
